import Mathlib

/-!
Verification of the NextBridge bridge router core against its source.

The Python modules `services/bridge.py`, `services/media.py`,
`services/message.py` and `drivers/registry.py` are shallowly embedded
below.  Python dicts are modelled as association lists (first occurrence
of a key wins on lookup, mirroring a dict where every key occurs once);
Python `str(x)` on channel values is `pyStr`; the sender callbacks are
opaque, so an invocation is recorded as a `SendCall` value and the
routing entry point returns the list of invocations it performs.
Logging is a side effect with no influence on routing and is not
modelled.
-/

/-- A primitive channel-address value.  Per the data model, `channel` is a
mapping of string keys to string/number values, so address values are
strings or integers. -/
inductive Prim where
  | s (v : String)
  | i (v : Int)
deriving DecidableEq, Repr

/-- Python `str()` of a primitive channel value. -/
def pyStr : Prim → String
  | .s v => v
  | .i v => toString v

/-- A channel address: a Python dict of primitive values, as an
association list. -/
abbrev Channel := List (String × Prim)

/-- Python `d.get(key)` on an association-list dict: the value at the first
occurrence of `key`, if any. -/
def dget {α : Type} : List (String × α) → String → Option α
  | [], _ => none
  | (k, v) :: r, key => if k = key then some v else dget r key

/-- Python `d[key] = v` on an association-list dict: replace the value at
an existing key in place, else append. -/
def dset {α : Type} (d : List (String × α)) (key : String) (v : α) : List (String × α) :=
  if (dget d key).isSome then
    d.map fun kv => if kv.1 = key then (kv.1, v) else kv
  else d ++ [(key, v)]

/-- Python `{**a, **b}`: keys of `a` in order with values overridden by
`b`, then the keys of `b` not in `a`. -/
def dmerge {α : Type} (a b : List (String × α)) : List (String × α) :=
  (a.map fun kv => (kv.1, (dget b kv.1).getD kv.2)) ++
    b.filter fun kv => (dget a kv.1).isNone

/-- Python dict equality on channel addresses: the same keys mapped to
equal values, irrespective of entry order (the "deep equality" used by
the echo-suppression check `target_channel == msg.channel`). -/
def chanEqb (a b : Channel) : Bool :=
  (a.all fun kv => match dget b kv.1 with
    | some w => kv.2 == w
    | none => false) &&
  (b.all fun kv => (dget a kv.1).isSome)

/-- Python `str(msg.channel.get(key, ""))`: the stringified channel value
at `key`, or the empty string when the key is absent. -/
def chanStr (c : Channel) (key : String) : String :=
  match dget c key with
  | some p => pyStr p
  | none => ""

/-- Python substring test `needle in haystack` (true for the empty
needle). -/
def isSubstrB (needle haystack : String) : Bool :=
  haystack.toList.tails.any fun t => needle.toList.isPrefixOf t

/-- Python `s.lower()` (character-wise, which agrees on the ASCII config
keys involved). -/
def strLower (s : String) : String :=
  (s.toList.map Char.toLower).asString

/-- Python `s.endswith(suffix)`. -/
def strEndsWith (s suffix : String) : Bool :=
  suffix.toList.isSuffixOf s.toList

/-- Python `s[:-n]` for `0 < n ≤ len(s)`: drop the last `n` characters. -/
def strDropRight (s : String) (n : Nat) : String :=
  (s.toList.take (s.toList.length - n)).asString

/-- An arbitrary JSON-like config value (used for non-string `msg`-block
entries, which the router passes through unchanged, and for the config
tree walked by the sensitive-value extractor). -/
inductive Val where
  | prim (p : Prim)
  | vlist (l : List Val)
  | vdict (d : List (String × Val))
deriving Repr

/-- One piece of a parsed Python format string: a literal run or a
`\x7bname\x7d` replacement field.  `msg_format` templates use plain named
fields, per the rule schema. -/
inductive FmtPart where
  | lit (s : String)
  | field (f : String)
deriving DecidableEq, Repr

/-- A parsed format template. -/
abbrev Tmpl := List FmtPart

/-- Re-serialise a template to its Python source string: literal braces
are escaped by doubling, a field becomes `\x7bname\x7d`. -/
def unparseTmpl : Tmpl → String
  | [] => ""
  | .lit s :: r =>
      (s.toList.flatMap fun ch =>
        if ch = Char.ofNat 123 ∨ ch = Char.ofNat 125 then [ch, ch] else [ch]).asString
        ++ unparseTmpl r
  | .field f :: r =>
      (Char.ofNat 123).toString ++ f ++ (Char.ofNat 125).toString ++ unparseTmpl r

/-- `fmt.format(**ctx)`: substitute each field from the context; a field
absent from the context raises `KeyError`, modelled as `none`. -/
def renderTmpl (ctx : List (String × String)) : Tmpl → Option String
  | [] => some ""
  | .lit s :: r => (renderTmpl ctx r).map (s ++ ·)
  | .field f :: r =>
      match dget ctx f with
      | some v => (renderTmpl ctx r).map (v ++ ·)
      | none => none

/-- A value of the `msg` block of a rule: either a Python string (carried
as its parsed template) or a non-string value passed through unchanged. -/
inductive MVal where
  | tmpl (t : Tmpl)
  | val (v : Val)

/-- A rule's `msg` config block: a dict of `MVal`s. -/
abbrev MsgCfg := List (String × MVal)

/-- A value delivered to a sender as an extra keyword argument: a string
(rendered, or the raw template on `KeyError`) or the untouched
non-string value. -/
inductive EVal where
  | str (s : String)
  | val (v : Val)

/-- `services/message.py` `Attachment` (the byte buffer is a list of
bytes). -/
structure Attachment where
  type : String
  url : String
  name : String
  size : Int
  data : Option (List Nat)

/-- `services/message.py` `NormalizedMessage`. -/
structure NormalizedMessage where
  platform : String
  instance_id : String
  channel : Channel
  user : String
  user_id : String
  user_avatar : String
  text : String
  attachments : List Attachment

/-- The `channels` entry of a connect rule for one instance: the bare
channel-address pairs together with the reserved per-target `msg`
override block.  In the source both live in one dict; `_dispatch_connect`
strips the reserved `msg` key to recover the bare address
(`\x7bk: v for k, v in target_cfg.items() if k != "msg"\x7d`), which is `addr`
here; a missing `msg` key reads as the empty dict via `.get("msg", \x7b\x7d)`. -/
structure ConnEntry where
  addr : Channel
  msgCfg : MsgCfg

/-- A bridge rule as loaded from `rules.json`: `rule.get("type")` and the
four blocks, each defaulting to the empty dict when absent
(`rule.get("from", \x7b\x7d)` etc.). -/
structure Rule where
  type : Option String
  fromCfg : List (String × Channel)
  toCfg : List (String × Channel)
  channels : List (String × ConnEntry)
  msgCfg : MsgCfg

/-- Bridge state: the rule list, the set of instance ids with a
registered sender callback, and the sensitive-value index. -/
structure BState where
  rules : List Rule
  senders : List String
  sensitive : List String

/-- One sender invocation performed by the router:
`sender(target_channel, formatted, attachments=msg.attachments, **extra)`
on the callback registered for `target`. -/
structure SendCall where
  target : String
  channel : Channel
  text : String
  extra : List (String × EVal)
  attachments : List Attachment

/-- `Bridge._matches_channel`: the message's instance id must key into
the `channels` block and every address pair of that entry must match
`str(msg.channel.get(key, "")) == str(expected)` (the reserved `msg` key
is already stripped into `ConnEntry.msgCfg`). -/
def matchesChannel (m : NormalizedMessage) (channels : List (String × ConnEntry)) : Bool :=
  match dget channels m.instance_id with
  | none => false
  | some entry => entry.addr.all fun kv => chanStr m.channel kv.1 == pyStr kv.2

/-- `Bridge._matches_from`: the message's instance id must key into the
`from` block and every pair of that entry must match
`str(msg.channel.get(key, "")) == str(expected)`. -/
def matchesFrom (m : NormalizedMessage) (fromCfg : List (String × Channel)) : Bool :=
  match dget fromCfg m.instance_id with
  | none => false
  | some expected => expected.all fun kv => chanStr m.channel kv.1 == pyStr kv.2

/-- The template context built by `Bridge._build_formatted`. -/
def fmtCtx (m : NormalizedMessage) : List (String × String) :=
  [("platform", m.platform), ("from", m.instance_id), ("username", m.user),
   ("user_id", m.user_id), ("user_avatar", m.user_avatar), ("msg", m.text)]

/-- `msg_cfg.get("msg_format", "\x7bmsg\x7d")`.  The rule schema types
`msg_format` as a string, so the stored value is a template; the default
is the one-field template `\x7bmsg\x7d`.  (A non-string `msg_format` would
raise `AttributeError` in the source and is outside the validated
schema; it is read as the default here.) -/
def getFmt (cfg : MsgCfg) : Tmpl :=
  match dget cfg "msg_format" with
  | some (.tmpl t) => t
  | some (.val _) => [.field "msg"]
  | none => [.field "msg"]

/-- The extra-keyword loop of `Bridge._build_formatted`: every `msg`-block
entry except `msg_format`; a string value is template-expanded, falling
back to the raw string itself on `KeyError`; a non-string value passes
through unchanged. -/
def buildExtra (ctx : List (String × String)) (cfg : MsgCfg) : List (String × EVal) :=
  (cfg.filter fun kv => kv.1 != "msg_format").map fun kv =>
    (kv.1, match kv.2 with
      | .tmpl t =>
          match renderTmpl ctx t with
          | some s => EVal.str s
          | none => EVal.str (unparseTmpl t)
      | .val w => EVal.val w)

/-- `Bridge._build_formatted`: format `msg_format` over the context,
falling back to the raw `msg.text` on `KeyError`, and build the extra
keyword arguments. -/
def buildFormatted (m : NormalizedMessage) (cfg : MsgCfg) : String × List (String × EVal) :=
  ((renderTmpl (fmtCtx m) (getFmt cfg)).getD m.text, buildExtra (fmtCtx m) cfg)

/-- `Bridge._is_sensitive`:
`bool(self._sensitive) and any(s in text for s in self._sensitive)`. -/
def isSensitive (sensitive : List String) (text : String) : Bool :=
  !sensitive.isEmpty && sensitive.any fun s => isSubstrB s text

/-- The body of the target loop of `Bridge._dispatch`: skip the echo back
to the exact source channel, skip when the formatted text hits the
sensitive index, warn and skip when no sender is registered, else invoke
the sender. -/
def forwardTarget (st : BState) (m : NormalizedMessage) (formatted : String)
    (extra : List (String × EVal)) (kv : String × Channel) : Option SendCall :=
  if kv.1 == m.instance_id && chanEqb kv.2 m.channel then none
  else if isSensitive st.sensitive formatted then none
  else if st.senders.contains kv.1 then
    some ⟨kv.1, kv.2, formatted, extra, m.attachments⟩
  else none

/-- `Bridge._dispatch`: format from the rule's `msg` block (the source
computes this once before the loop; the model is pure, so passing the
same value to every iteration is identical), then run the target loop
over the `to` block. -/
def dispatch (st : BState) (m : NormalizedMessage) (r : Rule) : List SendCall :=
  r.toCfg.filterMap
    (forwardTarget st m (buildFormatted m r.msgCfg).1 (buildFormatted m r.msgCfg).2)

/-- The body of the target loop of `Bridge._dispatch_connect`: skip the
echo back to the exact source channel, merge the per-target `msg` block
over the rule-global one (target wins), format, then the same sensitive
and sender-lookup checks as the forward path. -/
def connectTarget (st : BState) (m : NormalizedMessage) (globalMsg : MsgCfg)
    (kv : String × ConnEntry) : Option SendCall :=
  if kv.1 == m.instance_id && chanEqb kv.2.addr m.channel then none
  else if isSensitive st.sensitive (buildFormatted m (dmerge globalMsg kv.2.msgCfg)).1 then none
  else if st.senders.contains kv.1 then
    some ⟨kv.1, kv.2.addr, (buildFormatted m (dmerge globalMsg kv.2.msgCfg)).1,
      (buildFormatted m (dmerge globalMsg kv.2.msgCfg)).2, m.attachments⟩
  else none

/-- `Bridge._dispatch_connect`: fan out over every entry of the
`channels` block. -/
def dispatchConnect (st : BState) (m : NormalizedMessage) (r : Rule) : List SendCall :=
  r.channels.filterMap (connectTarget st m r.msgCfg)

/-- `Bridge.on_message`: for each rule in order, a rule whose `type` is
exactly `"connect"` is matched and dispatched as a connect rule; every
other rule (any other `type`, or none) as a forward rule.  The result is
the concatenated list of sender invocations. -/
def onMessage (st : BState) (m : NormalizedMessage) : List SendCall :=
  st.rules.flatMap fun r =>
    if r.type == some "connect" then
      if matchesChannel m r.channels then dispatchConnect st m r else []
    else
      if matchesFrom m r.fromCfg then dispatch st m r else []

/-- Substring patterns of `bridge.py`: config keys whose values are
credentials. -/
def sensitiveKeyPatterns : List String := ["token", "secret", "password", "webhook_url"]

/-- `any(p in k.lower() for p in _SENSITIVE_KEY_PATTERNS)`. -/
def isSensitiveKey (k : String) : Bool :=
  sensitiveKeyPatterns.any fun p => isSubstrB p (strLower k)

mutual
/-- `_collect_sensitive` of `bridge.py` on one config value: recurse into
dicts and lists; primitives alone contribute nothing. -/
def collectVal : Val → List String
  | .prim _ => []
  | .vlist l => collectList l
  | .vdict d => collectDict d

/-- `_collect_sensitive` over the items of a list. -/
def collectList : List Val → List String
  | [] => []
  | v :: r => collectVal v ++ collectList r

/-- `_collect_sensitive` over the items of a dict: a non-empty string
value under a sensitive key is collected; any other value is recursed
into (recursing into a string or number finds nothing). -/
def collectDict : List (String × Val) → List String
  | [] => []
  | (k, v) :: r =>
    (match v with
     | .prim (.s s) => if s ≠ "" && isSensitiveKey k then [s] else []
     | w => collectVal w) ++ collectDict r
end

/-- `Bridge.load_sensitive_values`: walk the config and freeze the result
(the frozenset is modelled by the collected list; membership is what the
guard consumes). -/
def loadSensitiveValues (config : Val) : List String := collectVal config

/-- The MIME-to-extension table of `filename_for` in `services/media.py`. -/
def mimeExtTable : List (String × String) :=
  [("image/jpeg", "jpg"), ("image/png", "png"), ("image/gif", "gif"),
   ("image/webp", "webp"), ("video/mp4", "mp4"), ("video/webm", "webm"),
   ("audio/ogg", "ogg"), ("audio/mpeg", "mp3"), ("audio/aac", "aac"),
   ("audio/amr", "amr")]

/-- The MIME-to-fallback-name table of `filename_for`. -/
def fallbackNameTable : List (String × String) :=
  [("image/jpeg", "photo.jpg"), ("image/png", "photo.png"), ("image/gif", "image.gif"),
   ("image/webp", "image.webp"), ("video/mp4", "video.mp4"), ("video/webm", "video.webm"),
   ("audio/ogg", "voice.ogg"), ("audio/mpeg", "audio.mp3"), ("audio/aac", "audio.aac"),
   ("audio/amr", "voice.amr")]

/-- `filename_for` of `services/media.py`: an empty hint synthesises a
name from the MIME fallback table (default `attachment.bin`); a
non-empty hint ending in `.tmp` has the suffix replaced by the extension
for the MIME type when the table knows it; any other hint is returned
unchanged. -/
def filename_for (name content_type : String) : String :=
  if name = "" then (dget fallbackNameTable content_type).getD "attachment.bin"
  else if strEndsWith name ".tmp" then
    match dget mimeExtTable content_type with
    | some ext => strDropRight name 4 ++ "." ++ ext
    | none => name
  else name

/-- The observable behaviour of the HTTP endpoint during one `fetch`
call: whether the HEAD pre-flight succeeded and what parseable
`Content-Length` it carried, whether the GET succeeded, and the chunk
sequence `iter_chunked` would yield with the response content type. -/
structure HttpResponse where
  headOk : Bool
  contentLength : Option Nat
  getOk : Bool
  chunks : List (List Nat)
  contentType : String

/-- The streaming loop of `fetch`: accumulate chunks, aborting with
`none` as soon as the running total exceeds `max_bytes`. -/
def readChunks (maxBytes : Nat) : List (List Nat) → Nat → Option (List Nat)
  | [], _ => some []
  | ch :: rest, total =>
    if total + ch.length > maxBytes then none
    else (readChunks maxBytes rest (total + ch.length)).map (ch ++ ·)

/-- `fetch` of `services/media.py`: empty URL gives `none`; a successful
HEAD whose `Content-Length` exceeds `max_bytes` gives `none` without a
GET (a failed HEAD or unparseable header is ignored); a failed GET
gives `none`; otherwise stream with the size cap, defaulting an empty
content type to `application/octet-stream`. -/
def fetch (url : String) (maxBytes : Nat) (resp : HttpResponse) : Option (List Nat × String) :=
  if url = "" then none
  else if resp.headOk && (match resp.contentLength with
    | some cl => decide (cl > maxBytes)
    | none => false) then none
  else if !resp.getOk then none
  else
    match readChunks maxBytes resp.chunks 0 with
    | none => none
    | some body =>
      some (body, if resp.contentType = "" then "application/octet-stream" else resp.contentType)

/-- `fetch_attachment` of `services/media.py`: pre-fetched data is
returned directly unless it exceeds `max_bytes` (the MIME type guessed
from the name by the stdlib is an oracle argument, defaulted like the
source); otherwise fall back to `fetch(att.url, max_bytes)`. -/
def fetch_attachment (att : Attachment) (maxBytes : Nat) (resp : HttpResponse)
    (guessType : String → Option String) : Option (List Nat × String) :=
  match att.data with
  | some d =>
    if d.length > maxBytes then none
    else some (d, (guessType att.name).getD "application/octet-stream")
  | none => fetch att.url maxBytes resp

/-- `register` of `drivers/registry.py`: plain dict assignment
`_REGISTRY[name] = (config_cls, driver_cls)`; the entry pair is opaque
here. -/
def register {α : Type} (registry : List (String × α)) (name : String) (entry : α) :
    List (String × α) :=
  dset registry name entry

/-- `all_drivers` of `drivers/registry.py`: a shallow copy of the
registry dict. -/
def all_drivers {α : Type} (registry : List (String × α)) : List (String × α) :=
  registry

theorem forwardTarget_eq_some {st : BState} {m : NormalizedMessage} {f : String}
    {e : List (String × EVal)} {kv : String × Channel} {call : SendCall}
    (h : forwardTarget st m f e kv = some call) :
    call.target = kv.1 ∧ call.channel = kv.2 ∧ call.text = f ∧
      (kv.1 == m.instance_id && chanEqb kv.2 m.channel) = false ∧
      isSensitive st.sensitive call.text = false := by
  unfold forwardTarget at h
  split at h
  · exact absurd h (by simp)
  · next hecho =>
    split at h
    · exact absurd h (by simp)
    · next hsens =>
      split at h
      · injection h with h'
        subst h'
        exact ⟨rfl, rfl, rfl, Bool.eq_false_iff.mpr hecho, Bool.eq_false_iff.mpr hsens⟩
      · exact absurd h (by simp)

theorem connectTarget_eq_some {st : BState} {m : NormalizedMessage} {gm : MsgCfg}
    {kv : String × ConnEntry} {call : SendCall}
    (h : connectTarget st m gm kv = some call) :
    call.target = kv.1 ∧ call.channel = kv.2.addr ∧
      (kv.1 == m.instance_id && chanEqb kv.2.addr m.channel) = false ∧
      isSensitive st.sensitive call.text = false := by
  unfold connectTarget at h
  split at h
  · exact absurd h (by simp)
  · next hecho =>
    split at h
    · exact absurd h (by simp)
    · next hsens =>
      split at h
      · injection h with h'
        subst h'
        exact ⟨rfl, rfl, Bool.eq_false_iff.mpr hecho, Bool.eq_false_iff.mpr hsens⟩
      · exact absurd h (by simp)

theorem mem_onMessage_elim {st : BState} {m : NormalizedMessage} {call : SendCall}
    (h : call ∈ onMessage st m) :
    (call.target == m.instance_id && chanEqb call.channel m.channel) = false ∧
      isSensitive st.sensitive call.text = false := by
  unfold onMessage at h
  rw [List.mem_flatMap] at h
  obtain ⟨r, _, hcall⟩ := h
  by_cases hty : (r.type == some "connect") = true
  · rw [if_pos hty] at hcall
    by_cases hm : matchesChannel m r.channels = true
    · rw [if_pos hm] at hcall
      unfold dispatchConnect at hcall
      rw [List.mem_filterMap] at hcall
      obtain ⟨kv, _, hkv⟩ := hcall
      obtain ⟨h1, h2, h3, h4⟩ := connectTarget_eq_some hkv
      rw [h1, h2]
      exact ⟨h3, h4⟩
    · rw [if_neg hm] at hcall
      exact absurd hcall (by simp)
  · rw [if_neg hty] at hcall
    by_cases hm : matchesFrom m r.fromCfg = true
    · rw [if_pos hm] at hcall
      unfold dispatch at hcall
      rw [List.mem_filterMap] at hcall
      obtain ⟨kv, _, hkv⟩ := hcall
      obtain ⟨h1, h2, _, h4, h5⟩ := forwardTarget_eq_some hkv
      rw [h1, h2]
      exact ⟨h4, h5⟩
    · rw [if_neg hm] at hcall
      exact absurd hcall (by simp)

def exMsg : NormalizedMessage :=
  ⟨"qq", "a", [("chat", Prim.s "1")], "Alice", "u1", "", "hi", []⟩

def exRuleFwd : Rule :=
  ⟨some "forward", [("a", [("chat", Prim.s "1")])], [("b", [("chat", Prim.s "2")])], [],
   [("msg_format", MVal.tmpl [FmtPart.field "msg"])]⟩

def exState : BState := ⟨[exRuleFwd], ["b"], ["topsecret99"]⟩

def exCall : SendCall := ⟨"b", [("chat", Prim.s "2")], "hi", [], []⟩

theorem exCall_mem : exCall ∈ onMessage exState exMsg := by
  have h : onMessage exState exMsg = [exCall] := rfl
  rw [h]
  exact List.mem_singleton.mpr rfl

/-- C1: no self-echo — every sender invocation performed by `on_message`
is to a target whose instance id differs from the message's or whose
channel address differs from the message's channel under deep dict
equality; a target equal to the source `(instance, channel)` is always
skipped. -/
theorem no_self_echo (st : BState) (m : NormalizedMessage) (call : SendCall)
    (h : call ∈ onMessage st m) :
    ¬(call.target = m.instance_id ∧ chanEqb call.channel m.channel = true) := by
  rintro ⟨h1, h2⟩
  have h3 := (mem_onMessage_elim h).1
  rw [h1, h2] at h3
  simp at h3

theorem no_self_echo_witness :
    exCall ∈ onMessage exState exMsg ∧
      ¬(exCall.target = exMsg.instance_id ∧ chanEqb exCall.channel exMsg.channel = true) :=
  ⟨exCall_mem, no_self_echo exState exMsg exCall exCall_mem⟩

/-- C2: sensitive guard — no sender invocation performed by `on_message`
carries a text containing any member of the sensitive index (the
contrapositive of: a sensitive hit drops the send to that target); and
the per-target loop decides each target independently, so a dropped
target never cancels the remaining ones. -/
theorem sensitive_guard :
    (∀ (st : BState) (m : NormalizedMessage) (call : SendCall), call ∈ onMessage st m →
       ∀ S ∈ st.sensitive, isSubstrB S call.text = false) ∧
    (∀ (st : BState) (m : NormalizedMessage) (f : String) (e : List (String × EVal))
       (to1 to2 : List (String × Channel)),
       List.filterMap (forwardTarget st m f e) (to1 ++ to2) =
         List.filterMap (forwardTarget st m f e) to1 ++
           List.filterMap (forwardTarget st m f e) to2) := by
  constructor
  · intro st m call h S hS
    have hsens := (mem_onMessage_elim h).2
    have hne : st.sensitive.isEmpty = false := by
      cases hst : st.sensitive.isEmpty
      · rfl
      · rw [List.isEmpty_iff] at hst
        rw [hst] at hS
        exact absurd hS (List.not_mem_nil S)
    unfold isSensitive at hsens
    rw [hne] at hsens
    simp [List.any_eq_false] at hsens
    exact hsens S hS
  · intro st m f e to1 to2
    exact List.filterMap_append to1 to2 (forwardTarget st m f e)

theorem sensitive_guard_witness :
    exCall ∈ onMessage exState exMsg ∧ "topsecret99" ∈ exState.sensitive ∧
      isSubstrB "topsecret99" exCall.text = false :=
  ⟨exCall_mem, List.mem_singleton.mpr rfl,
    sensitive_guard.1 exState exMsg exCall exCall_mem "topsecret99" (List.mem_singleton.mpr rfl)⟩

theorem dget_eq_none {α : Type} (l : List (String × α)) (k : String) :
    dget l k = none ↔ ∀ kv ∈ l, kv.1 ≠ k := by
  induction l with
  | nil => simp [dget]
  | cons kv r ih =>
    by_cases hk : kv.1 = k
    · simp [dget, hk]
    · simp [dget, hk, ih]

theorem dget_fmtCtx_eq_none {m : NormalizedMessage} {f : String}
    (h : f ∉ ["platform", "from", "username", "user_id", "user_avatar", "msg"]) :
    dget (fmtCtx m) f = none := by
  rw [dget_eq_none]
  intro kv hkv
  simp [fmtCtx] at hkv
  simp at h
  rcases hkv with rfl | rfl | rfl | rfl | rfl | rfl <;> simp_all [eq_comm]

theorem renderTmpl_eq_none {ctx : List (String × String)} {t : Tmpl} {f : String}
    (hf : FmtPart.field f ∈ t) (hnone : dget ctx f = none) :
    renderTmpl ctx t = none := by
  induction t with
  | nil => cases hf
  | cons p r ih =>
    cases p with
    | lit s =>
      have hr : FmtPart.field f ∈ r := by simpa using hf
      simp [renderTmpl, ih hr]
    | field g =>
      by_cases hg : g = f
      · subst hg
        simp [renderTmpl, hnone]
      · have hr : FmtPart.field f ∈ r := by
          rcases List.mem_cons.mp hf with h | h
          · injection h with hh
            exact absurd hh.symm hg
          · exact h
        cases hdg : dget ctx g <;> simp [renderTmpl, hdg, ih hr]

/-- C5: unknown-placeholder fallback — when `msg_format` references any
placeholder outside the known context keys, the formatted text falls
back to the raw `msg.text`; for `msg_format = "\x7bmsg\x7d"` it is exactly
`msg.text` (the warning log is a side effect outside the model). -/
theorem template_fallback :
    (∀ (m : NormalizedMessage) (cfg : MsgCfg) (t : Tmpl) (f : String),
       dget cfg "msg_format" = some (MVal.tmpl t) →
       FmtPart.field f ∈ t →
       f ∉ ["platform", "from", "username", "user_id", "user_avatar", "msg"] →
       (buildFormatted m cfg).1 = m.text) ∧
    (∀ (m : NormalizedMessage) (cfg : MsgCfg),
       dget cfg "msg_format" = some (MVal.tmpl [FmtPart.field "msg"]) →
       (buildFormatted m cfg).1 = m.text) := by
  constructor
  · intro m cfg t f hget hmem hout
    unfold buildFormatted
    simp only [getFmt, hget]
    rw [renderTmpl_eq_none hmem (dget_fmtCtx_eq_none hout)]
    rfl
  · intro m cfg hget
    unfold buildFormatted
    simp only [getFmt, hget]
    simp [renderTmpl, dget, fmtCtx]

theorem template_fallback_witness :
    dget [("msg_format", MVal.tmpl [FmtPart.field "oops"])] "msg_format" =
        some (MVal.tmpl [FmtPart.field "oops"]) ∧
      (buildFormatted exMsg [("msg_format", MVal.tmpl [FmtPart.field "oops"])]).1 = exMsg.text :=
  ⟨rfl, template_fallback.1 exMsg _ [FmtPart.field "oops"] "oops" rfl
    (List.mem_singleton.mpr rfl) (by decide)⟩

/-- C10: extra-key fallback — a string-valued `msg`-block entry other
than `msg_format` whose template hits an unknown placeholder is
forwarded raw: the key survives with the un-expanded template string as
its value (not `msg.text`). -/
theorem extra_raw_fallback (m : NormalizedMessage) (cfg : MsgCfg) (k : String) (t : Tmpl)
    (f : String) (hk : k ≠ "msg_format") (hmem : (k, MVal.tmpl t) ∈ cfg)
    (hf : FmtPart.field f ∈ t)
    (hout : f ∉ ["platform", "from", "username", "user_id", "user_avatar", "msg"]) :
    (k, EVal.str (unparseTmpl t)) ∈ (buildFormatted m cfg).2 := by
  unfold buildFormatted buildExtra
  refine List.mem_map.mpr ⟨(k, MVal.tmpl t), List.mem_filter.mpr ⟨hmem, by simp [hk]⟩, ?_⟩
  simp [renderTmpl_eq_none hf (dget_fmtCtx_eq_none hout)]

theorem extra_raw_fallback_witness :
    ("custom" : String) ≠ "msg_format" ∧
      ("custom", EVal.str (unparseTmpl [FmtPart.field "bad"])) ∈
        (buildFormatted exMsg [("custom", MVal.tmpl [FmtPart.field "bad"])]).2 :=
  ⟨by decide, extra_raw_fallback exMsg _ "custom" [FmtPart.field "bad"] "bad" (by decide)
    (List.mem_singleton.mpr rfl) (List.mem_singleton.mpr rfl) (by decide)⟩

theorem string_ne_empty_len {s : String} (h : s ≠ "") : 1 ≤ s.length := by
  rcases s with ⟨l⟩
  cases l with
  | nil => simp at h
  | cons c r => simp [String.length]

mutual
theorem collectVal_mem_len : ∀ (v : Val), ∀ s ∈ collectVal v, 1 ≤ s.length
  | .prim _, s, h => by simp [collectVal] at h
  | .vlist l, s, h => collectList_mem_len l s (by simpa [collectVal] using h)
  | .vdict d, s, h => collectDict_mem_len d s (by simpa [collectVal] using h)

theorem collectList_mem_len : ∀ (l : List Val), ∀ s ∈ collectList l, 1 ≤ s.length
  | [], s, h => by simp [collectList] at h
  | v :: r, s, h => by
    rcases List.mem_append.mp (by simpa [collectList] using h) with h' | h'
    · exact collectVal_mem_len v s h'
    · exact collectList_mem_len r s h'

theorem collectDict_mem_len : ∀ (d : List (String × Val)), ∀ s ∈ collectDict d, 1 ≤ s.length
  | [], s, h => by simp [collectDict] at h
  | (k, Val.prim (Prim.s str)) :: r, s, h => by
    have h2 : ((¬str = "" ∧ isSensitiveKey k = true) ∧ s = str) ∨ s ∈ collectDict r := by
      simpa [collectDict] using h
    rcases h2 with ⟨⟨hne, _⟩, rfl⟩ | h'
    · exact string_ne_empty_len hne
    · exact collectDict_mem_len r s h'
  | (k, Val.prim (Prim.i n)) :: r, s, h => by
    rcases List.mem_append.mp (by simpa [collectDict] using h) with h' | h'
    · simp [collectVal] at h'
    · exact collectDict_mem_len r s h'
  | (k, Val.vlist l) :: r, s, h => by
    rcases List.mem_append.mp (by simpa [collectDict] using h) with h' | h'
    · exact collectVal_mem_len (Val.vlist l) s h'
    · exact collectDict_mem_len r s h'
  | (k, Val.vdict d') :: r, s, h => by
    rcases List.mem_append.mp (by simpa [collectDict] using h) with h' | h'
    · exact collectVal_mem_len (Val.vdict d') s h'
    · exact collectDict_mem_len r s h'
end

/-- Counterexample for C3: a three-character value under a `token` key is
collected, so the sensitive index is not restricted to values of length
at least 8. -/
theorem sensitive_extraction_counterexample :
    "abc" ∈ loadSensitiveValues (Val.vdict [("token", Val.prim (Prim.s "abc"))]) ∧
      "abc".length < 8 := by
  constructor
  · decide
  · decide

/-- C3 (amended): `load_sensitive_values` adds a config string value to
the sensitive index exactly when its key name (case-insensitively)
contains one of `token`, `secret`, `password`, `webhook_url` and the
value is non-empty — no minimum length is enforced; consequently every
member of the resulting index has length ≥ 1. -/
theorem sensitive_extraction_amended :
    (∀ (config : Val) (s : String), s ∈ loadSensitiveValues config → 1 ≤ s.length) ∧
    (∀ (k s : String) (d : List (String × Val)),
       collectDict ((k, Val.prim (Prim.s s)) :: d) =
         (if s ≠ "" && isSensitiveKey k then [s] else []) ++ collectDict d) := by
  constructor
  · intro config s h
    exact collectVal_mem_len config s h
  · intro k s d
    rfl

/-- Witness for the amended C3 at a concrete config. -/
theorem sensitive_extraction_amended_witness :
    "hunter2!" ∈ loadSensitiveValues (Val.vdict [("Password", Val.prim (Prim.s "hunter2!"))]) ∧
      1 ≤ "hunter2!".length :=
  ⟨by decide,
    sensitive_extraction_amended.1 (Val.vdict [("Password", Val.prim (Prim.s "hunter2!"))])
      "hunter2!" (by decide)⟩

theorem readChunks_length_le {mb : Nat} (chunks : List (List Nat)) :
    ∀ (total : Nat) (body : List Nat),
      readChunks mb chunks total = some body → body.length ≤ mb - total := by
  induction chunks with
  | nil =>
    intro total body h
    unfold readChunks at h
    injection h with h'
    simp [← h']
  | cons ch rest ih =>
    intro total body h
    unfold readChunks at h
    split at h
    · exact absurd h (by simp)
    · next hle =>
      cases hr : readChunks mb rest (total + ch.length) with
      | none => rw [hr] at h; simp at h
      | some b =>
        rw [hr] at h
        simp at h
        have hb := ih (total + ch.length) b hr
        rw [← h]
        simp only [List.length_append]
        omega

theorem readChunks_none_of_overflow {mb : Nat} (chunks : List (List Nat)) :
    ∀ (total : Nat), total ≤ mb → mb < total + (chunks.map List.length).sum →
      readChunks mb chunks total = none := by
  induction chunks with
  | nil =>
    intro total h1 h2
    simp at h2
    omega
  | cons ch rest ih =>
    intro total h1 h2
    simp only [List.map_cons, List.sum_cons] at h2
    unfold readChunks
    split
    · rfl
    · next hgt =>
      rw [ih (total + ch.length) (by omega) (by omega)]
      rfl

theorem fetch_length_le {url : String} {mb : Nat} {resp : HttpResponse} {buf : List Nat}
    {ct : String} (h : fetch url mb resp = some (buf, ct)) : buf.length ≤ mb := by
  unfold fetch at h
  split at h
  · exact absurd h (by simp)
  · split at h
    · exact absurd h (by simp)
    · split at h
      · exact absurd h (by simp)
      · cases hr : readChunks mb resp.chunks 0 with
        | none => rw [hr] at h; exact absurd h (by simp)
        | some body =>
          rw [hr] at h
          injection h with h'
          have := readChunks_length_le resp.chunks 0 body hr
          cases h'
          omega

/-- C4: media size cap — `fetch_attachment` never returns a buffer longer
than `max_bytes`: any returned buffer is within the cap; oversized
pre-fetched data is rejected; an oversized HEAD `Content-Length` is
rejected before the GET; and a chunk stream whose cumulative size
exceeds the cap is aborted. -/
theorem media_size_cap :
    (∀ (att : Attachment) (mb : Nat) (resp : HttpResponse) (g : String → Option String)
       (buf : List Nat) (ct : String),
       fetch_attachment att mb resp g = some (buf, ct) → buf.length ≤ mb) ∧
    (∀ (att : Attachment) (mb : Nat) (resp : HttpResponse) (g : String → Option String)
       (d : List Nat), att.data = some d → mb < d.length →
       fetch_attachment att mb resp g = none) ∧
    (∀ (att : Attachment) (mb : Nat) (resp : HttpResponse) (g : String → Option String)
       (cl : Nat), att.data = none → resp.headOk = true → resp.contentLength = some cl →
       mb < cl → fetch_attachment att mb resp g = none) ∧
    (∀ (att : Attachment) (mb : Nat) (resp : HttpResponse) (g : String → Option String),
       att.data = none → mb < (resp.chunks.map List.length).sum →
       fetch_attachment att mb resp g = none) := by
  have hfetch_none : ∀ (url : String) (mb : Nat) (resp : HttpResponse),
      mb < (resp.chunks.map List.length).sum → fetch url mb resp = none := by
    intro url mb resp hsum
    unfold fetch
    by_cases hu : url = ""
    · rw [if_pos hu]
    · rw [if_neg hu]
      by_cases hhead : (resp.headOk && match resp.contentLength with
        | some cl => decide (cl > mb)
        | none => false) = true
      · rw [if_pos hhead]
      · rw [if_neg hhead]
        by_cases hget : (!resp.getOk) = true
        · rw [if_pos hget]
        · rw [if_neg hget]
          rw [readChunks_none_of_overflow resp.chunks 0 (Nat.zero_le mb) (by omega)]
  refine ⟨?_, ?_, ?_, ?_⟩
  · intro att mb resp g buf ct h
    obtain ⟨ty, url, nm, sz, data⟩ := att
    cases data with
    | some d =>
      unfold fetch_attachment at h
      dsimp only at h
      split at h
      · exact absurd h (by simp)
      · next hgt =>
        injection h with h'
        have h1 : d = buf := congrArg Prod.fst h'
        rw [← h1]
        omega
    | none =>
      unfold fetch_attachment at h
      dsimp only at h
      exact fetch_length_le h
  · intro att mb resp g d hd hgt
    obtain ⟨ty, url, nm, sz, data⟩ := att
    simp only at hd
    subst hd
    unfold fetch_attachment
    dsimp only
    rw [if_pos (by simpa using hgt)]
  · intro att mb resp g cl hd hh hcl hgt
    obtain ⟨ty, url, nm, sz, data⟩ := att
    simp only at hd
    subst hd
    unfold fetch_attachment fetch
    dsimp only
    by_cases hu : url = ""
    · rw [if_pos hu]
    · rw [if_neg hu]
      have hhead : (resp.headOk && match resp.contentLength with
        | some cl => decide (cl > mb)
        | none => false) = true := by
        rw [hh, hcl]
        simp
        omega
      rw [if_pos hhead]
  · intro att mb resp g hd hsum
    obtain ⟨ty, url, nm, sz, data⟩ := att
    simp only at hd
    subst hd
    unfold fetch_attachment
    dsimp only
    exact hfetch_none url mb resp hsum

/-- Witness for C4 at concrete inputs: a pre-fetched three-byte buffer
within a cap of 10, and an oversized chunk stream under a cap of 2. -/
theorem media_size_cap_witness :
    fetch_attachment ⟨"image", "", "f.bin", -1, some [1, 2, 3]⟩ 10
        ⟨false, none, false, [], ""⟩ (fun _ => none) =
      some ([1, 2, 3], "application/octet-stream") ∧
    ([1, 2, 3] : List Nat).length ≤ 10 ∧
    fetch_attachment ⟨"image", "http://u", "f", -1, none⟩ 2
        ⟨false, none, true, [[1, 2, 3]], ""⟩ (fun _ => none) = none :=
  ⟨rfl,
    media_size_cap.1 ⟨"image", "", "f.bin", -1, some [1, 2, 3]⟩ 10
      ⟨false, none, false, [], ""⟩ (fun _ => none) [1, 2, 3] "application/octet-stream" rfl,
    media_size_cap.2.2.2 ⟨"image", "http://u", "f", -1, none⟩ 2
      ⟨false, none, true, [[1, 2, 3]], ""⟩ (fun _ => none) rfl (by decide)⟩

theorem dget_map_set {α : Type} (k : String) (v : α) :
    ∀ d : List (String × α), dget d k ≠ none →
      dget (d.map fun kv => if kv.1 = k then (kv.1, v) else kv) k = some v := by
  intro d
  induction d with
  | nil => intro h; simp [dget] at h
  | cons kv r ih =>
    intro h
    obtain ⟨kh, w⟩ := kv
    by_cases hk : kh = k
    · subst hk
      rw [List.map_cons, if_pos rfl, dget, if_pos rfl]
    · simp only [List.map_cons, if_neg hk]
      simp only [dget, if_neg hk] at h ⊢
      exact ih h

theorem dget_append_of_none {α : Type} (k : String) (v : α) :
    ∀ d : List (String × α), dget d k = none →
      dget (d ++ [(k, v)]) k = some v := by
  intro d
  induction d with
  | nil => intro _; simp [dget]
  | cons kv r ih =>
    intro h
    obtain ⟨kh, w⟩ := kv
    by_cases hk : kh = k
    · simp [dget, hk] at h
    · simp only [List.cons_append]
      simp only [dget, if_neg hk] at h ⊢
      exact ih h

theorem dget_dset_self {α : Type} (d : List (String × α)) (k : String) (v : α) :
    dget (dset d k v) k = some v := by
  unfold dset
  split
  · next h =>
    exact dget_map_set k v d (Option.isSome_iff_ne_none.mp h)
  · next h =>
    exact dget_append_of_none k v d (Option.not_isSome_iff_eq_none.mp h)

theorem dset_keys_nodup {α : Type} (d : List (String × α)) (k : String) (v : α)
    (h : (d.map Prod.fst).Nodup) : ((dset d k v).map Prod.fst).Nodup := by
  unfold dset
  split
  · next hp =>
    have : ((d.map fun kv => if kv.1 = k then (kv.1, v) else kv).map Prod.fst) =
        d.map Prod.fst := by
      rw [List.map_map]
      apply List.map_congr_left
      intro kv _
      by_cases hk : kv.1 = k <;> simp [hk]
    rw [this]
    exact h
  · next hp =>
    have hk : k ∉ d.map Prod.fst := by
      intro hmem
      rcases List.mem_map.mp hmem with ⟨kv, hkv, hfst⟩
      have := (dget_eq_none d k).mp (Option.not_isSome_iff_eq_none.mp hp)
      exact this kv hkv hfst
    simp only [List.map_append, List.map_cons, List.map_nil]
    rw [List.nodup_append]
    exact ⟨h, List.nodup_singleton k, by simpa using hk⟩

/-- Counterexample for C6: registering a second driver under an
already-taken platform name raises no error — `register` completes and
silently replaces the first entry with the second. -/
theorem registry_counterexample :
    register (register ([] : List (String × Nat)) "napcat" 1) "napcat" 2 = [("napcat", 2)] ∧
      dget (register (register ([] : List (String × Nat)) "napcat" 1) "napcat" 2) "napcat" =
        some 2 :=
  ⟨rfl, rfl⟩

/-- C6 (amended): `register` never signals an error; a second
registration under the same platform name silently replaces the first
(the last registration wins), and the registry still holds exactly one
entry per platform name. -/
theorem registry_amended :
    (∀ (α : Type) (r : List (String × α)) (n : String) (e1 e2 : α),
       dget (register (register r n e1) n e2) n = some e2) ∧
    (∀ (α : Type) (r : List (String × α)) (n : String) (e : α),
       (r.map Prod.fst).Nodup → ((register r n e).map Prod.fst).Nodup) := by
  constructor
  · intro α r n e1 e2
    exact dget_dset_self (register r n e1) n e2
  · intro α r n e h
    exact dset_keys_nodup r n e h

/-- Witness for the amended C6 at a concrete registry. -/
theorem registry_amended_witness :
    dget (register (register [("discord", 7)] "napcat" 1) "napcat" 2) "napcat" = some 2 ∧
      ([("discord", 7), ("napcat", 1)].map (Prod.fst (α := String) (β := Nat))).Nodup :=
  ⟨registry_amended.1 Nat [("discord", 7)] "napcat" 1 2,
    registry_amended.2 Nat [("discord", 7)] "napcat" 1 (by decide)⟩

/-- C7: filename synthesis — a non-empty hint is returned unchanged
unless it ends in `.tmp`, in which case the `.tmp` suffix is rewritten
to the extension the MIME table derives; an empty hint synthesises a
name from the fallback table, defaulting to `attachment.bin`; in
particular `filename_for "photo.tmp" "image/jpeg" = "photo.jpg"` and
`filename_for "photo.jpg" m = "photo.jpg"` for every MIME type `m`. -/
theorem filename_synthesis :
    (∀ (name mime : String), name ≠ "" → strEndsWith name ".tmp" = false →
       filename_for name mime = name) ∧
    (∀ (name mime ext : String), name ≠ "" → strEndsWith name ".tmp" = true →
       dget mimeExtTable mime = some ext →
       filename_for name mime = strDropRight name 4 ++ "." ++ ext) ∧
    (∀ (mime : String), filename_for "" mime =
       (dget fallbackNameTable mime).getD "attachment.bin") ∧
    filename_for "photo.tmp" "image/jpeg" = "photo.jpg" ∧
    (∀ (mime : String), filename_for "photo.jpg" mime = "photo.jpg") := by
  refine ⟨?_, ?_, ?_, by decide, ?_⟩
  · intro name mime h1 h2
    unfold filename_for
    rw [if_neg h1, if_neg (by simp [h2])]
  · intro name mime ext h1 h2 h3
    unfold filename_for
    rw [if_neg h1, if_pos h2, h3]
  · intro mime
    unfold filename_for
    rw [if_pos rfl]
  · intro mime
    unfold filename_for
    rw [if_neg (by decide), if_neg (by decide)]

/-- Witness for C7 at concrete inputs. -/
theorem filename_synthesis_witness :
    filename_for "voice.ogg" "application/pdf" = "voice.ogg" ∧
      filename_for "img.tmp" "image/png" = strDropRight "img.tmp" 4 ++ "." ++ "png" :=
  ⟨filename_synthesis.1 "voice.ogg" "application/pdf" (by decide) (by decide),
    filename_synthesis.2.1 "img.tmp" "image/png" "png" (by decide) (by decide) rfl⟩

/-- C8: rule-type dispatch default — with a single rule installed,
`on_message` routes through the connect matcher and dispatcher exactly
when the rule's `type` is the string `"connect"`; any other `type`
(a different string such as `"foward"`, or a missing key) is evaluated
as a forward rule against its `from`/`to` blocks. -/
theorem rule_type_default :
    (∀ (sd se : List String) (m : NormalizedMessage) (r : Rule),
       r.type ≠ some "connect" →
       onMessage ⟨[r], sd, se⟩ m =
         if matchesFrom m r.fromCfg then dispatch ⟨[r], sd, se⟩ m r else []) ∧
    (∀ (sd se : List String) (m : NormalizedMessage) (r : Rule),
       r.type = some "connect" →
       onMessage ⟨[r], sd, se⟩ m =
         if matchesChannel m r.channels then dispatchConnect ⟨[r], sd, se⟩ m r else []) := by
  constructor
  · intro sd se m r h
    unfold onMessage
    simp [h]
  · intro sd se m r h
    unfold onMessage
    simp [h]

/-- Witness for C8: a misspelled `type: "foward"` rule is evaluated as a
forward rule. -/
theorem rule_type_default_witness :
    (some "foward" ≠ some "connect") ∧
      onMessage ⟨[⟨some "foward", exRuleFwd.fromCfg, exRuleFwd.toCfg, [], exRuleFwd.msgCfg⟩],
          ["b"], []⟩ exMsg =
        if matchesFrom exMsg exRuleFwd.fromCfg
        then dispatch ⟨[⟨some "foward", exRuleFwd.fromCfg, exRuleFwd.toCfg, [], exRuleFwd.msgCfg⟩],
          ["b"], []⟩ exMsg ⟨some "foward", exRuleFwd.fromCfg, exRuleFwd.toCfg, [], exRuleFwd.msgCfg⟩
        else [] :=
  ⟨by decide,
    rule_type_default.1 ["b"] [] exMsg
      ⟨some "foward", exRuleFwd.fromCfg, exRuleFwd.toCfg, [], exRuleFwd.msgCfg⟩ (by decide)⟩

/-- C9: missing-key matching — in both matchers a channel key absent
from `msg.channel` is compared as the empty string, so an expected value
whose `str()` is empty matches a message lacking that key; and matching
is stringwise (`str(actual) == str(expected)`), not type-sensitive. -/
theorem missing_key_matching :
    (∀ (m : NormalizedMessage) (k : String) (exp : Prim),
       dget m.channel k = none → pyStr exp = "" →
       matchesFrom m [(m.instance_id, [(k, exp)])] = true) ∧
    (∀ (m : NormalizedMessage) (k : String) (exp : Prim) (mc : MsgCfg),
       dget m.channel k = none → pyStr exp = "" →
       matchesChannel m [(m.instance_id, ⟨[(k, exp)], mc⟩)] = true) ∧
    (∀ (m : NormalizedMessage) (fromCfg : List (String × Channel)) (pairs : Channel),
       dget fromCfg m.instance_id = some pairs →
       (matchesFrom m fromCfg = true ↔
         ∀ kv ∈ pairs, chanStr m.channel kv.1 = pyStr kv.2)) ∧
    (∀ (m : NormalizedMessage) (k : String) (actual exp : Prim),
       dget m.channel k = some actual → pyStr actual = pyStr exp →
       matchesFrom m [(m.instance_id, [(k, exp)])] = true) := by
  refine ⟨?_, ?_, ?_, ?_⟩
  · intro m k exp h1 h2
    unfold matchesFrom
    rw [dget, if_pos rfl]
    simp [chanStr, h1, h2]
  · intro m k exp mc h1 h2
    unfold matchesChannel
    rw [dget, if_pos rfl]
    simp [chanStr, h1, h2]
  · intro m fromCfg pairs hget
    unfold matchesFrom
    rw [hget]
    simp [List.all_eq_true]
  · intro m k actual exp h1 h2
    unfold matchesFrom
    rw [dget, if_pos rfl]
    simp [chanStr, h1, h2]

/-- Witness for C9: an absent `thread` key matches an expected empty
string, and an integer rule value matches a string channel value with
the same text. -/
theorem missing_key_matching_witness :
    dget exMsg.channel "thread" = none ∧
      matchesFrom exMsg [(exMsg.instance_id, [("thread", Prim.s "")])] = true ∧
      matchesFrom exMsg [(exMsg.instance_id, [("chat", Prim.i 1)])] = true :=
  ⟨rfl,
    missing_key_matching.1 exMsg "thread" (Prim.s "") rfl rfl,
    missing_key_matching.2.2.2 exMsg "chat" (Prim.s "1") (Prim.i 1) rfl rfl⟩
